import Mathlib

/-!
Verification development for the RAG PDF Q&A assistant.

The pipeline code (rag_pipeline.py, embedding_manager.py, llm_handler.py,
pdf_processor.py) is shallowly embedded below.  External collaborators
(the sentence-transformers embedding model, the ChromaDB vector store and
the HuggingFace generation pipeline) are represented by their outcomes:
a call that can raise is modelled as an `Except String` value carrying
the failure message, and Python floats are modelled as rationals.
-/

/-- Metadata dictionary attached to a stored chunk.  Both keys are read
with `dict.get(key, default)` in the source, so each field is optional. -/
structure Metadata where
  source_pdf : Option String
  chunk_index : Option Int
deriving DecidableEq

/-- One element of the list returned by `query_similar_chunks`
(embedding_manager.py lines 130-141): the chunk text, the similarity
score and the stored metadata. -/
structure RetrievedChunk where
  chunk : String
  score : ℚ
  metadata : Metadata
deriving DecidableEq

/-- The raw, rank-aligned triple returned by the vector-search
collaborator for one query (`results["documents"][0]`,
`results["distances"][0]`, `results["metadatas"][0]`). -/
structure QueryRaw where
  documents : List String
  distances : List ℚ
  metadatas : List Metadata
deriving DecidableEq

/-- One element of the `sources` list built by `answer_question`
(rag_pipeline.py lines 46-53). -/
structure SourceEntry where
  source_pdf : String
  chunk_index : Int
  score : ℚ
deriving DecidableEq

/-- The result dictionary returned by `answer_question`
(rag_pipeline.py): answer, sources, confidence, chunks, error. -/
structure AnswerResult where
  answer : Option String
  sources : List SourceEntry
  confidence : ℚ
  chunks : List RetrievedChunk
  error : Option String
deriving DecidableEq

/-- The formatting loop of `query_similar_chunks` (embedding_manager.py
lines 129-141): zip the rank-aligned documents, distances and metadatas
and convert each distance to a similarity via `1.0 - dist`. -/
def formatResults (r : QueryRaw) : List RetrievedChunk :=
  (r.documents.zip (r.distances.zip r.metadatas)).map fun p =>
    { chunk := p.1, score := 1 - p.2.1, metadata := p.2.2 }

/-- `query_similar_chunks` (embedding_manager.py lines 106-144).
`setup` is the outcome of `get_or_create_collection` and
`load_embedding_model`, both of which run BEFORE the `try` block and
re-raise on failure; `raw` is the outcome of the embedding/query calls
inside the `try` block, whose exceptions are caught and turned into
the empty list. -/
def query_similar_chunks (setup : Except String Unit) (raw : Except String QueryRaw) :
    Except String (List RetrievedChunk) :=
  match setup with
  | Except.error e => Except.error e
  | Except.ok _ =>
    match raw with
    | Except.error _ => Except.ok []
    | Except.ok r => Except.ok (formatResults r)

/-- `format_prompt` (llm_handler.py lines 44-52); quotation marks of the
original literal elided. -/
def format_prompt (question context : String) : String :=
  "You are a helpful assistant. Answer the question using ONLY the context below. " ++
  "If the answer is not in the context, say I do not know. Be as detailed as possible.\n\n" ++
  "Context:\n" ++ context ++ "\n\nQuestion: " ++ question ++ "\nAnswer:"

/-- `generate_answer` (llm_handler.py lines 54-79): `pipe` is the
combined outcome of `load_llm` and the generation pipeline call on the
formatted prompt; both run inside the `try` block, so ANY failure is
caught and `None` is returned.  On success the generated text is
stripped. -/
def generate_answer (question context : String) (pipe : String → Except String String) :
    Option String :=
  match pipe (format_prompt question context) with
  | Except.error _ => none
  | Except.ok generated_text => some generated_text.trim

/-- Context assembly in `answer_question` (rag_pipeline.py line 39):
`"\n\n".join([item["chunk"] for item in retrieved])`. -/
def assemble_context (retrieved : List RetrievedChunk) : String :=
  String.intercalate "\n\n" (retrieved.map RetrievedChunk.chunk)

/-- Confidence computation in `answer_question` (rag_pipeline.py lines
43-44): `float(sum(scores)) / len(scores) if scores else 0.0`. -/
def mean_score (retrieved : List RetrievedChunk) : ℚ :=
  let scores := retrieved.map RetrievedChunk.score
  if scores = [] then 0 else scores.sum / (scores.length : ℚ)

/-- Source formatting in `answer_question` (rag_pipeline.py lines
46-53), with the dictionary defaults "unknown" and -1. -/
def format_sources (retrieved : List RetrievedChunk) : List SourceEntry :=
  retrieved.map fun item =>
    { source_pdf := item.metadata.source_pdf.getD "unknown",
      chunk_index := item.metadata.chunk_index.getD (-1),
      score := item.score }

/-- `answer_question` (rag_pipeline.py lines 27-69).  `retrieveRes` is
the outcome of the `query_similar_chunks` call (which may raise, see
`query_similar_chunks` above) and `gen` is the outcome of the
generation step as a function of the assembled context; the orchestrator
catches any exception from either stage and converts it into a result
dictionary carrying `str(e)`. -/
def answer_question (retrieveRes : Except String (List RetrievedChunk))
    (gen : String → Except String (Option String)) : AnswerResult :=
  match retrieveRes with
  | Except.error e =>
    { answer := none, sources := [], confidence := 0, chunks := [], error := some e }
  | Except.ok retrieved =>
    if retrieved = [] then
      { answer := none, sources := [], confidence := 0, chunks := [],
        error := some "No relevant context found." }
    else
      match gen (assemble_context retrieved) with
      | Except.error e =>
        { answer := none, sources := [], confidence := 0, chunks := [], error := some e }
      | Except.ok answer =>
        { answer := answer, sources := format_sources retrieved,
          confidence := mean_score retrieved, chunks := retrieved, error := none }

/-- The composed pipeline exactly as the modules call one another:
`answer_question` invokes `query_similar_chunks` and then
`generate_answer` (which itself never raises: it catches every failure
of the generation collaborator and returns `None`). -/
def rag_answer (question : String) (setup : Except String Unit) (raw : Except String QueryRaw)
    (pipe : String → Except String String) : AnswerResult :=
  answer_question (query_similar_chunks setup raw)
    (fun context => Except.ok (generate_answer question context pipe))

/-- The arithmetic mean as the spec words it (section 4.4): the sum of the
values divided by how many there are.  Stated separately from
`mean_score` so the code's confidence can be compared against it. -/
def specArithmeticMean (xs : List ℚ) : ℚ :=
  xs.sum / (xs.length : ℚ)

/-- One record held by the vector-search collaborator: id, embedding,
document text and metadata, as passed by `store_embeddings`. -/
structure StoredVector where
  id : String
  embedding : List ℚ
  document : String
  metadata : Metadata
deriving DecidableEq

/-- The deterministic id built in `store_embeddings`
(embedding_manager.py line 93): the Python f-string with the source pdf
name, an underscore and the chunk index. -/
def mkId (source_pdf : String) (i : Nat) : String :=
  source_pdf ++ "_" ++ toString i

/-- Modelled from the spec: the vector-search collaborator (ChromaDB) is
external to src/, so its storage semantics follow section 6 of the spec,
`upsert(collection, ids, vectors, documents, metadatas)`: inserting a
record whose id is already present overwrites every record with that id
in place; a fresh id is appended. -/
def upsertOne (store : List StoredVector) (v : StoredVector) : List StoredVector :=
  if store.any (fun w => w.id == v.id) then
    store.map (fun w => if w.id == v.id then v else w)
  else
    store ++ [v]

/-- Modelled from the spec: a batch call to the collaborator upserts the
records one after the other, in order. -/
def upsertMany (store : List StoredVector) (vs : List StoredVector) : List StoredVector :=
  vs.foldl upsertOne store

/-- The batch built by `store_embeddings` (embedding_manager.py lines
92-99): ids `mkId source_pdf i` and metadatas `{source_pdf, chunk_index: i}`
for `i` ranging over the chunk positions, paired with the given
embeddings. -/
def entriesOf (embeddings : List (List ℚ)) (chunks : List String) (source_pdf : String) :
    List StoredVector :=
  (chunks.zip embeddings).enum.map fun p =>
    { id := mkId source_pdf p.1,
      embedding := p.2.2,
      document := p.2.1,
      metadata := { source_pdf := some source_pdf, chunk_index := some (p.1 : Int) } }

/-- `store_embeddings` (embedding_manager.py lines 66-104) acting on the
collaborator state: build the deterministic ids and metadatas and hand
the batch to the collection. -/
def store_embeddings (embeddings : List (List ℚ)) (chunks : List String)
    (source_pdf : String) (store : List StoredVector) : List StoredVector :=
  upsertMany store (entriesOf embeddings chunks source_pdf)

/-!
The chunker.  `chunk_text` (pdf_processor.py lines 41-60) delegates to
langchain's `RecursiveCharacterTextSplitter`, whose code is not part of
this repository; the splitter below is therefore modelled from the spec
(section 4.1): recursively attempt to split on a prioritized list of
separators from coarsest to finest so that splits occur at the most
semantically natural boundary that still keeps each chunk within
`chunk_size` characters, and start each chunk after the first with up to
`overlap` characters of the previous chunk's tail.  Text is represented
as a list of characters.
-/

/-- Find the first occurrence of the separator inside the text: the part
before it and the part after it, or `none` when it does not occur. -/
def firstSplit (sep : List Char) : List Char → Option (List Char × List Char)
  | [] => none
  | c :: cs =>
    if sep.isPrefixOf (c :: cs) then some ([], (c :: cs).drop sep.length)
    else
      match firstSplit sep cs with
      | none => none
      | some (pre, post) => some (c :: pre, post)

/-- Whether the separator occurs anywhere in the text as a contiguous
run of characters. -/
def containsSeq (sep : List Char) : List Char → Bool
  | [] => sep.isEmpty
  | c :: cs => sep.isPrefixOf (c :: cs) || containsSeq sep cs

/-- Split the text at every occurrence of the separator, with fuel to
keep the recursion structural; each step removes at least one character
when the separator is non-empty, so `text.length` fuel is enough. -/
def splitOnLAux (sep : List Char) : Nat → List Char → List (List Char)
  | 0, l => [l]
  | fuel + 1, l =>
    match firstSplit sep l with
    | none => [l]
    | some (pre, post) => pre :: splitOnLAux sep fuel post

/-- Modelled from the spec: split the text at every occurrence of the
separator (the analogue of Python `text.split(sep)`). -/
def splitOnL (sep l : List Char) : List (List Char) :=
  splitOnLAux sep l.length l

/-- Join pieces, putting the separator back between adjacent pieces. -/
def joinSep (sep : List Char) : List (List Char) → List Char
  | [] => []
  | [x] => x
  | x :: xs => x ++ sep ++ joinSep sep xs

/-- Modelled from the spec: the longest suffix of the accumulated pieces
whose joined length stays within the overlap budget; it seeds the next
chunk so that each chunk after the first begins with the previous
chunk's tail. -/
def overlapTail (ov : Nat) (sep : List Char) : List (List Char) → List (List Char)
  | [] => []
  | x :: t =>
    if (joinSep sep (x :: t)).length ≤ ov then x :: t
    else overlapTail ov sep t

/-- Modelled from the spec: greedily merge consecutive pieces into
chunks of at most `cs` joined characters, carrying an overlap tail
between consecutive chunks; a single piece longer than `cs` that cannot
be extended is emitted as a chunk on its own. -/
def mergeAux (cs ov : Nat) (sep : List Char) :
    List (List Char) → List (List Char) → List (List Char)
  | acc, [] => if acc = [] then [] else [joinSep sep acc]
  | acc, p :: ps =>
    if (joinSep sep (acc ++ [p])).length ≤ cs then
      mergeAux cs ov sep (acc ++ [p]) ps
    else
      (if acc = [] then [] else [joinSep sep acc]) ++
        (if (joinSep sep (overlapTail ov sep acc ++ [p])).length ≤ cs then
          mergeAux cs ov sep (overlapTail ov sep acc ++ [p]) ps
        else if p.length ≤ cs then
          mergeAux cs ov sep [p] ps
        else
          p :: mergeAux cs ov sep [] ps)

/-- Modelled from the spec: merge the recursively split pieces back into
bounded chunks. -/
def mergeSplits (cs ov : Nat) (sep : List Char) (pieces : List (List Char)) :
    List (List Char) :=
  mergeAux cs ov sep [] pieces

/-- One level of the recursive splitter: a text within the bound is a
chunk by itself; otherwise split on this separator and merge, handing
every piece to the next-finer level `f`; when the separator does not
occur the text is handed to `f` unchanged. -/
def splitRecStep (cs ov : Nat) (s : List Char) (f : List Char → List (List Char))
    (text : List Char) : List (List Char) :=
  if text.length ≤ cs then [text]
  else
    match splitOnL s text with
    | [q] => f q
    | pieces => mergeSplits cs ov s (pieces.map f).flatten

/-- Modelled from the spec: the recursive character splitter over a
prioritized separator list, coarsest first. -/
def splitRec (cs ov : Nat) (seps : List (List Char)) : List Char → List (List Char) :=
  seps.foldr (fun s f => splitRecStep cs ov s f) (fun text => [text])

/-- The separator priority list passed to the splitter in `chunk_text`
(pdf_processor.py line 57): paragraph break, line break, sentence
terminators, whitespace. -/
def separators : List (List Char) :=
  [['\n', '\n'], ['\n'], ['.'], ['!'], ['?'], [' ']]

/-- `chunk_text` (pdf_processor.py lines 41-60). -/
def chunk_text (text : List Char) (chunk_size overlap : Nat) : List (List Char) :=
  splitRec chunk_size overlap separators text

/-- The indivisible tokens of a text relative to a separator list: what
remains when the text is split by every separator in turn, with no
merging.  An oversized chunk produced by the splitter is exactly one of
these. -/
def atoms (seps : List (List Char)) : List Char → List (List Char) :=
  seps.foldr (fun s f => fun text => ((splitOnL s text).map f).flatten) (fun text => [text])

/-- Claim C3: when retrieval returns the empty sequence, `answer_question`
returns null answer, empty sources, zero confidence and the error
"No relevant context found.", and this result is the same whatever the
generation collaborator would do — generation is never invoked. -/
theorem empty_retrieval_no_context_result (gen : String → Except String (Option String)) :
    answer_question (Except.ok []) gen =
      { answer := none, sources := [], confidence := 0, chunks := [],
        error := some "No relevant context found." } := rfl

/-- Claim C4: whenever a stage of `answer_question` raises — retrieval
raising with message `e`, or the generation step raising with message `e`
after a non-empty retrieval — the orchestrator returns a result object
whose error field carries that message and whose answer is null; no
raised fault reaches the caller (the function is total and always
produces an `AnswerResult`). -/
theorem orchestrator_converts_stage_faults (rr : Except String (List RetrievedChunk))
    (gen : String → Except String (Option String)) (e : String)
    (h : rr = Except.error e ∨
      ∃ l, rr = Except.ok l ∧ l ≠ [] ∧ gen (assemble_context l) = Except.error e) :
    answer_question rr gen =
      { answer := none, sources := [], confidence := 0, chunks := [], error := some e } := by
  rcases h with h | ⟨l, hl, hne, hg⟩
  · subst h; rfl
  · subst hl
    simp [answer_question, hne, hg]

theorem orchestrator_converts_stage_faults_witness :
    answer_question (Except.error "retrieval down") (fun _ => Except.ok none) =
      { answer := none, sources := [], confidence := 0, chunks := [],
        error := some "retrieval down" } :=
  orchestrator_converts_stage_faults _ _ _ (Or.inl rfl)

/-- Claim C2, amended: at most one of the answer and error fields of an
`answer_question` result is non-null (both are null when the generation
collaborator fails, see claim C1), and whenever error is non-null the
answer is null, the sources are empty and the confidence is zero. -/
theorem error_set_implies_null_answer_empty_sources
    (rr : Except String (List RetrievedChunk)) (gen : String → Except String (Option String))
    (h : (answer_question rr gen).error ≠ none) :
    (answer_question rr gen).answer = none ∧ (answer_question rr gen).sources = [] ∧
      (answer_question rr gen).confidence = 0 := by
  rcases rr with e | retrieved
  · exact ⟨rfl, rfl, rfl⟩
  · by_cases hne : retrieved = []
    · subst hne; exact ⟨rfl, rfl, rfl⟩
    · rcases hg : gen (assemble_context retrieved) with e | a
      · simp [answer_question, hne, hg]
      · exact absurd (by simp [answer_question, hne, hg]) h

theorem error_set_implies_null_answer_empty_sources_witness :
    (answer_question (Except.error "index unavailable") (fun _ => Except.ok none)).answer =
        none ∧
      (answer_question (Except.error "index unavailable") (fun _ => Except.ok none)).sources =
        [] ∧
      (answer_question (Except.error "index unavailable") (fun _ => Except.ok none)).confidence =
        0 :=
  error_set_implies_null_answer_empty_sources _ _ (by decide)

/-- Claim C2, counterexample: a run in which the generation collaborator
fails leaves BOTH the answer and the error fields null, so it is false
that exactly one of them is always non-null. -/
theorem answer_error_both_null_counterexample :
    (rag_answer "q2" (Except.ok ())
        (Except.ok
          { documents := ["ctx2"], distances := [0],
            metadatas := [{ source_pdf := some "b.pdf", chunk_index := some 1 }] })
        (fun _ => Except.error "llm oom")).answer = none ∧
      (rag_answer "q2" (Except.ok ())
        (Except.ok
          { documents := ["ctx2"], distances := [0],
            metadatas := [{ source_pdf := some "b.pdf", chunk_index := some 1 }] })
        (fun _ => Except.error "llm oom")).error = none := by
  exact ⟨rfl, rfl⟩

/-- Claim C1, counterexample: when the generation collaborator fails on
a non-empty retrieval, the returned result does NOT carry the failure
message — its error field is null, its sources are non-empty and its
confidence is the mean similarity, contradicting the claimed
`GenerationFailed` shape. -/
theorem generation_failure_counterexample :
    (rag_answer "q1" (Except.ok ())
        (Except.ok
          { documents := ["ctx1"], distances := [1/2],
            metadatas := [{ source_pdf := some "a.pdf", chunk_index := some 0 }] })
        (fun _ => Except.error "LLM inference failed")).error = none ∧
      (rag_answer "q1" (Except.ok ())
        (Except.ok
          { documents := ["ctx1"], distances := [1/2],
            metadatas := [{ source_pdf := some "a.pdf", chunk_index := some 0 }] })
        (fun _ => Except.error "LLM inference failed")).sources =
        [{ source_pdf := "a.pdf", chunk_index := 0, score := 1/2 }] ∧
      (rag_answer "q1" (Except.ok ())
        (Except.ok
          { documents := ["ctx1"], distances := [1/2],
            metadatas := [{ source_pdf := some "a.pdf", chunk_index := some 0 }] })
        (fun _ => Except.error "LLM inference failed")).confidence = 1/2 := by
  refine ⟨rfl, ?_, ?_⟩ <;>
  · simp [rag_answer, query_similar_chunks, answer_question, formatResults, format_sources,
      mean_score, generate_answer]
    norm_num

/-- Claim C1, amended: when the generation collaborator fails during
step 3, `generate_answer` swallows the failure and returns null, and
`answer_question` returns a result with null answer, null error, and the
sources, confidence and chunks still populated from the retrieval — the
failure is silently indistinguishable from a generated null answer. -/
theorem generation_failure_silent_null_answer (question : String) (r : QueryRaw)
    (pipe : String → Except String String) (e : String)
    (hne : formatResults r ≠ []) (hpipe : ∀ s, pipe s = Except.error e) :
    rag_answer question (Except.ok ()) (Except.ok r) pipe =
      { answer := none, sources := format_sources (formatResults r),
        confidence := mean_score (formatResults r),
        chunks := formatResults r, error := none } := by
  simp [rag_answer, query_similar_chunks, answer_question, hne, generate_answer, hpipe]

theorem generation_failure_silent_null_answer_witness :
    rag_answer "w1" (Except.ok ())
        (Except.ok
          { documents := ["wdoc"], distances := [1/4],
            metadatas := [{ source_pdf := some "w.pdf", chunk_index := some 2 }] })
        (fun _ => Except.error "load failed") =
      { answer := none,
        sources := format_sources (formatResults
          { documents := ["wdoc"], distances := [1/4],
            metadatas := [{ source_pdf := some "w.pdf", chunk_index := some 2 }] }),
        confidence := mean_score (formatResults
          { documents := ["wdoc"], distances := [1/4],
            metadatas := [{ source_pdf := some "w.pdf", chunk_index := some 2 }] }),
        chunks := formatResults
          { documents := ["wdoc"], distances := [1/4],
            metadatas := [{ source_pdf := some "w.pdf", chunk_index := some 2 }] },
        error := none } :=
  generation_failure_silent_null_answer "w1" _ _ "load failed" (by decide) (fun _ => rfl)

/-- Claim C5: for a run of the composed pipeline, the confidence of a
result built from a non-empty retrieval equals the arithmetic mean of
the similarity scores of all retrieved chunks, and the confidence is
zero when the retrieval is empty. -/
theorem confidence_mean_of_similarities (question : String) (r : QueryRaw)
    (pipe : String → Except String String) :
    (formatResults r ≠ [] →
      (rag_answer question (Except.ok ()) (Except.ok r) pipe).confidence =
        specArithmeticMean
          ((rag_answer question (Except.ok ()) (Except.ok r) pipe).chunks.map
            RetrievedChunk.score)) ∧
    (formatResults r = [] →
      (rag_answer question (Except.ok ()) (Except.ok r) pipe).confidence = 0) := by
  constructor
  · intro hne
    simp only [rag_answer, query_similar_chunks, answer_question, hne, if_neg hne]
    simp [mean_score, specArithmeticMean, hne]
  · intro he
    simp [rag_answer, query_similar_chunks, answer_question, he]

theorem confidence_mean_of_similarities_witness :
    (rag_answer "w5" (Except.ok ())
        (Except.ok
          { documents := ["wa", "wb"], distances := [1/4, 3/4],
            metadatas := [{ source_pdf := none, chunk_index := none },
              { source_pdf := none, chunk_index := none }] })
        (fun s => Except.ok s)).confidence =
      specArithmeticMean
        ((rag_answer "w5" (Except.ok ())
          (Except.ok
            { documents := ["wa", "wb"], distances := [1/4, 3/4],
              metadatas := [{ source_pdf := none, chunk_index := none },
                { source_pdf := none, chunk_index := none }] })
          (fun s => Except.ok s)).chunks.map RetrievedChunk.score) :=
  (confidence_mean_of_similarities "w5" _ _).1 (by decide)

/-- Claim C8: for a non-empty retrieval, the context string handed to
the generation step is exactly the retrieved chunk texts joined in
retrieval order with the paragraph separator, with no truncation or
reordering: `assemble_context` equals that join, and any two generation
collaborators that agree on that single string produce identical
`answer_question` results. -/
theorem generation_receives_joined_context (retrieved : List RetrievedChunk)
    (hne : retrieved ≠ []) (gen1 gen2 : String → Except String (Option String))
    (hg : gen1 (String.intercalate "\n\n" (retrieved.map RetrievedChunk.chunk)) =
      gen2 (String.intercalate "\n\n" (retrieved.map RetrievedChunk.chunk))) :
    assemble_context retrieved =
        String.intercalate "\n\n" (retrieved.map RetrievedChunk.chunk) ∧
      answer_question (Except.ok retrieved) gen1 =
        answer_question (Except.ok retrieved) gen2 := by
  refine ⟨rfl, ?_⟩
  have hg2 : gen1 (assemble_context retrieved) = gen2 (assemble_context retrieved) := hg
  simp [answer_question, hne, hg2]

theorem generation_receives_joined_context_witness :
    assemble_context
        [{ chunk := "c8", score := 1, metadata := { source_pdf := none, chunk_index := none } }] =
        String.intercalate "\n\n"
          ([{ chunk := "c8", score := 1, metadata := { source_pdf := none, chunk_index := none } }].map
            RetrievedChunk.chunk) ∧
      answer_question
          (Except.ok
            [{ chunk := "c8", score := 1, metadata := { source_pdf := none, chunk_index := none } }])
          (fun _ => Except.ok (some "a8")) =
        answer_question
          (Except.ok
            [{ chunk := "c8", score := 1, metadata := { source_pdf := none, chunk_index := none } }])
          (fun s => if s = "" then Except.error "e8" else Except.ok (some "a8")) :=
  generation_receives_joined_context _ (by decide) _ _ rfl

/-- Claim C10, counterexample: a failure while obtaining the collection
or loading the embedding model happens before the `try` block of
`query_similar_chunks`, so the function raises instead of returning the
empty sequence, and the orchestrator then reports that failure message —
distinguishable from the empty-corpus outcome. -/
theorem retrieval_setup_failure_counterexample :
    query_similar_chunks (Except.error "model load failed")
        (Except.ok { documents := [], distances := [], metadatas := [] }) =
      Except.error "model load failed" ∧
    (answer_question
        (query_similar_chunks (Except.error "model load failed")
          (Except.ok { documents := [], distances := [], metadatas := [] }))
        (fun _ => Except.ok none)).error = some "model load failed" :=
  ⟨rfl, rfl⟩

/-- Claim C10, amended: exceptions raised inside the try block of
`query_similar_chunks` (query embedding, vector search, result
formatting) are caught and the empty sequence is returned, making the
failure indistinguishable at the result level from an empty corpus; but
failures while obtaining the collection or loading the embedding model
propagate out of `query_similar_chunks`, and `answer_question` reports
them through its catch-all with the raw message instead. -/
theorem retrieval_error_handling_split (e : String) (raw : Except String QueryRaw)
    (gen : String → Except String (Option String)) :
    query_similar_chunks (Except.ok ()) (Except.error e) = Except.ok [] ∧
    answer_question (query_similar_chunks (Except.ok ()) (Except.error e)) gen =
      { answer := none, sources := [], confidence := 0, chunks := [],
        error := some "No relevant context found." } ∧
    query_similar_chunks (Except.error e) raw = Except.error e ∧
    answer_question (query_similar_chunks (Except.error e) raw) gen =
      { answer := none, sources := [], confidence := 0, chunks := [], error := some e } :=
  ⟨rfl, rfl, rfl, rfl⟩

/-- The score stored at position i of the formatted retrieval results is
one minus the distance at position i of the raw results. -/
theorem formatResults_score (r : QueryRaw) (i : Nat)
    (hi : i < (formatResults r).length) (hd : i < r.distances.length) :
    ((formatResults r).get ⟨i, hi⟩).score = 1 - r.distances.get ⟨i, hd⟩ := by
  simp only [formatResults, List.get_eq_getElem, List.getElem_map, List.getElem_zip]

/-- Claim C6: each retrieved chunk's similarity score equals one minus
the distance reported at the same rank by the vector-search
collaborator, and consequently a strictly smaller distance gives a
strictly larger similarity. -/
theorem similarity_complements_distance (r : QueryRaw) (i j : Nat)
    (hi : i < (formatResults r).length) (hj : j < (formatResults r).length)
    (hdi : i < r.distances.length) (hdj : j < r.distances.length) :
    ((formatResults r).get ⟨i, hi⟩).score = 1 - r.distances.get ⟨i, hdi⟩ ∧
      (r.distances.get ⟨i, hdi⟩ < r.distances.get ⟨j, hdj⟩ →
        ((formatResults r).get ⟨j, hj⟩).score < ((formatResults r).get ⟨i, hi⟩).score) := by
  refine ⟨formatResults_score r i hi hdi, fun hlt => ?_⟩
  rw [formatResults_score r i hi hdi, formatResults_score r j hj hdj]
  exact sub_lt_sub_left hlt 1

theorem similarity_complements_distance_witness :
    ((formatResults ⟨["x", "y"], [1/4, 1/2], [⟨none, none⟩, ⟨none, none⟩]⟩).get ⟨0, by decide⟩).score =
        1 - (⟨["x", "y"], [1/4, 1/2], [⟨none, none⟩, ⟨none, none⟩]⟩ : QueryRaw).distances.get ⟨0, by decide⟩ ∧
      ((formatResults ⟨["x", "y"], [1/4, 1/2], [⟨none, none⟩, ⟨none, none⟩]⟩).get ⟨1, by decide⟩).score <
        ((formatResults ⟨["x", "y"], [1/4, 1/2], [⟨none, none⟩, ⟨none, none⟩]⟩).get ⟨0, by decide⟩).score :=
  ⟨(similarity_complements_distance ⟨["x", "y"], [1/4, 1/2], [⟨none, none⟩, ⟨none, none⟩]⟩ 0 1
      (by decide) (by decide) (by decide) (by decide)).1,
    (similarity_complements_distance ⟨["x", "y"], [1/4, 1/2], [⟨none, none⟩, ⟨none, none⟩]⟩ 0 1
      (by decide) (by decide) (by decide) (by decide)).2 (by norm_num)⟩

/-- Replacing an already-present id leaves every count of id-matching
records unchanged, for any predicate that cannot tell the old record
from the new one. -/
theorem countP_upsertOne_present (s : List StoredVector) (v : StoredVector)
    (h : s.any (fun w => w.id == v.id) = true) (p : StoredVector → Bool)
    (hp : ∀ w : StoredVector, w.id = v.id → p w = p v) :
    (upsertOne s v).countP p = s.countP p := by
  simp only [upsertOne, if_pos h, List.countP_map]
  apply List.countP_congr
  intro w _
  by_cases hw : w.id = v.id
  · simp [Function.comp, hw, hp w hw]
  · simp [Function.comp, hw]

/-- Upserting an already-present id changes no per-id record count. -/
theorem countP_id_upsertOne_present (s : List StoredVector) (v : StoredVector)
    (h : s.any (fun w => w.id == v.id) = true) (a : String) :
    (upsertOne s v).countP (fun w => w.id == a) = s.countP (fun w => w.id == a) := by
  apply countP_upsertOne_present s v h
  intro w hw
  simp [hw]

/-- Upserting a fresh id appends it, raising only that id's count, by one. -/
theorem countP_id_upsertOne_absent (s : List StoredVector) (v : StoredVector)
    (h : s.any (fun w => w.id == v.id) = false) (a : String) :
    (upsertOne s v).countP (fun w => w.id == a) =
      s.countP (fun w => w.id == a) + (if v.id = a then 1 else 0) := by
  have he : upsertOne s v = s ++ [v] := by
    simp [upsertOne, h]
  rw [he, List.countP_append]
  congr 1
  by_cases hv : v.id = a <;> simp [List.countP_cons, hv]

/-- An id occurs in the store exactly when its record count is non-zero. -/
theorem any_eq_countP_ne (s : List StoredVector) (a : String) :
    s.any (fun w => w.id == a) = true ↔ s.countP (fun w => w.id == a) ≠ 0 := by
  rw [List.any_eq_true, ← List.countP_pos_iff, Nat.pos_iff_ne_zero]

/-- Once an id is present, a whole batch of upserts leaves its record
count unchanged. -/
theorem countP_upsertMany_stable (vs : List StoredVector) (s : List StoredVector) (a : String)
    (h : s.countP (fun w => w.id == a) ≠ 0) :
    (upsertMany s vs).countP (fun w => w.id == a) = s.countP (fun w => w.id == a) := by
  induction vs generalizing s with
  | nil => rfl
  | cons v t ih =>
    have hstep : (upsertOne s v).countP (fun w => w.id == a) =
        s.countP (fun w => w.id == a) := by
      rcases hany : s.any (fun w => w.id == v.id) with _ | _
      · rw [countP_id_upsertOne_absent s v hany a]
        have hz : s.countP (fun w => w.id == v.id) = 0 := by
          by_contra hc
          have h2 := (any_eq_countP_ne s v.id).mpr hc
          rw [hany] at h2
          exact Bool.false_ne_true h2
        have hva : v.id ≠ a := fun hva => h (hva ▸ hz)
        simp [hva]
      · exact countP_id_upsertOne_present s v hany a
    show (upsertMany (upsertOne s v) t).countP (fun w => w.id == a) = _
    rw [ih (upsertOne s v) (by rw [hstep]; exact h), hstep]

/-- Upserting a batch that mentions a previously-absent id leaves exactly
one record with that id. -/
theorem countP_upsertMany_fresh (vs : List StoredVector) (s : List StoredVector) (a : String)
    (h0 : s.countP (fun w => w.id == a) = 0) (hmem : ∃ v ∈ vs, v.id = a) :
    (upsertMany s vs).countP (fun w => w.id == a) = 1 := by
  induction vs generalizing s with
  | nil => exact absurd hmem (by simp)
  | cons v t ih =>
    show (upsertMany (upsertOne s v) t).countP (fun w => w.id == a) = 1
    by_cases hv : v.id = a
    · have hany : s.any (fun w => w.id == v.id) = false := by
        rw [← Bool.not_eq_true, any_eq_countP_ne, not_not, hv]
        exact h0
      have h1 : (upsertOne s v).countP (fun w => w.id == a) = 1 := by
        rw [countP_id_upsertOne_absent s v hany a, h0, if_pos hv]
      rw [countP_upsertMany_stable t (upsertOne s v) a (by rw [h1]; exact one_ne_zero), h1]
    · have hstep : (upsertOne s v).countP (fun w => w.id == a) = 0 := by
        rcases hany : s.any (fun w => w.id == v.id) with _ | _
        · rw [countP_id_upsertOne_absent s v hany a, h0, if_neg hv]
        · rw [countP_id_upsertOne_present s v hany a]; exact h0
      rcases hmem with ⟨u, hu, hua⟩
      rcases List.mem_cons.mp hu with rfl | hut
      · exact absurd hua hv
      · exact ih (upsertOne s v) hstep ⟨u, hut, hua⟩

/-- After a batch of upserts, every id of the batch is present. -/
theorem countP_upsertMany_of_mem (vs : List StoredVector) (s : List StoredVector)
    (v : StoredVector) (hv : v ∈ vs) :
    (upsertMany s vs).countP (fun w => w.id == v.id) ≠ 0 := by
  induction vs generalizing s with
  | nil => exact absurd hv (by simp)
  | cons u t ih =>
    show (upsertMany (upsertOne s u) t).countP (fun w => w.id == v.id) ≠ 0
    rcases List.mem_cons.mp hv with rfl | hvt
    · have hpos : (upsertOne s v).countP (fun w => w.id == v.id) ≠ 0 := by
        rcases hany : s.any (fun w => w.id == v.id) with _ | _
        · rw [countP_id_upsertOne_absent s v hany v.id]
          simp
        · rw [countP_id_upsertOne_present s v hany v.id]
          exact (any_eq_countP_ne s v.id).mp hany
      rw [countP_upsertMany_stable t (upsertOne s v) v.id hpos]
      exact hpos
    · exact ih (upsertOne s u) hvt

/-- A batch whose ids are all already present never changes the size of
the store. -/
theorem length_upsertMany (vs : List StoredVector) (s : List StoredVector)
    (h : ∀ v ∈ vs, s.countP (fun w => w.id == v.id) ≠ 0) :
    (upsertMany s vs).length = s.length := by
  induction vs generalizing s with
  | nil => rfl
  | cons v t ih =>
    have hany : s.any (fun w => w.id == v.id) = true :=
      (any_eq_countP_ne s v.id).mpr (h v (by simp))
    have hlen : (upsertOne s v).length = s.length := by
      simp only [upsertOne, if_pos hany, List.length_map]
    show (upsertMany (upsertOne s v) t).length = s.length
    rw [ih (upsertOne s v) ?_, hlen]
    intro u hu
    rw [countP_id_upsertOne_present s v hany u.id]
    exact h u (by simp [hu])

/-- The batch built by `store_embeddings` contains a record whose id is
the deterministic id of every in-range chunk position. -/
theorem entriesOf_get_id (e : List (List ℚ)) (c : List String) (p : String) (i : Nat)
    (hi : i < (c.zip e).length) :
    ∃ v ∈ entriesOf e c p, v.id = mkId p i := by
  have hl : i < (entriesOf e c p).length := by
    simpa [entriesOf] using hi
  refine ⟨(entriesOf e c p).get ⟨i, hl⟩, List.get_mem _ _ _, ?_⟩
  simp only [entriesOf, List.get_eq_getElem, List.getElem_map, List.getElem_enum]

/-- Claim C7: indexing the same (source_id, index) twice stores exactly
one vector under the deterministic id built from them — after the first
indexing the id has exactly one record, re-indexing keeps exactly one
record, and the collection size is unchanged by the re-indexing. -/
theorem reindexing_idempotent_unique_id (store : List StoredVector)
    (embeddings : List (List ℚ)) (chunks : List String) (p : String) (i : Nat)
    (hi : i < (chunks.zip embeddings).length)
    (hfresh : store.countP (fun w => w.id == mkId p i) = 0) :
    (store_embeddings embeddings chunks p store).countP (fun w => w.id == mkId p i) = 1 ∧
    (store_embeddings embeddings chunks p (store_embeddings embeddings chunks p store)).countP
        (fun w => w.id == mkId p i) = 1 ∧
    (store_embeddings embeddings chunks p (store_embeddings embeddings chunks p store)).length =
      (store_embeddings embeddings chunks p store).length := by
  simp only [store_embeddings]
  have hmem := entriesOf_get_id embeddings chunks p i hi
  have h1 : (upsertMany store (entriesOf embeddings chunks p)).countP
      (fun w => w.id == mkId p i) = 1 :=
    countP_upsertMany_fresh _ store _ hfresh hmem
  refine ⟨h1, ?_, ?_⟩
  · exact (countP_upsertMany_stable _ _ _ (by rw [h1]; exact one_ne_zero)).trans h1
  · apply length_upsertMany
    intro v hv
    exact countP_upsertMany_of_mem _ store v hv

theorem reindexing_idempotent_unique_id_witness :
    (store_embeddings [[1]] ["t"] "doc" []).countP (fun w => w.id == mkId "doc" 0) = 1 ∧
    (store_embeddings [[1]] ["t"] "doc" (store_embeddings [[1]] ["t"] "doc" [])).countP
        (fun w => w.id == mkId "doc" 0) = 1 ∧
    (store_embeddings [[1]] ["t"] "doc" (store_embeddings [[1]] ["t"] "doc" [])).length =
      (store_embeddings [[1]] ["t"] "doc" []).length :=
  reindexing_idempotent_unique_id [] [[1]] ["t"] "doc" 0 (by decide) rfl

theorem isPrefixOf_append_ext (s t y : List Char) (h : s.isPrefixOf t = true) :
    s.isPrefixOf (t ++ y) = true := by
  induction s generalizing t with
  | nil => exact List.isPrefixOf_iff_prefix.mpr List.nil_prefix
  | cons a as ih =>
    cases t with
    | nil => exact absurd h (by simp [List.isPrefixOf])
    | cons b bs =>
      simp only [List.isPrefixOf, Bool.and_eq_true] at h ⊢
      exact ⟨h.1, ih bs h.2⟩

theorem containsSeq_append_left (s x y : List Char) (h : containsSeq s x = true) :
    containsSeq s (x ++ y) = true := by
  induction x with
  | nil =>
    have hs : s = [] := by
      simpa [containsSeq, List.isEmpty_iff] using h
    subst hs
    cases y with
    | nil => rfl
    | cons c cs => simp [containsSeq, List.isPrefixOf]
  | cons c cs ih =>
    simp only [containsSeq, Bool.or_eq_true] at h
    rcases h with h | h
    · simp only [List.cons_append, containsSeq, Bool.or_eq_true]
      exact Or.inl (isPrefixOf_append_ext s (c :: cs) y h)
    · simp only [List.cons_append, containsSeq, Bool.or_eq_true]
      exact Or.inr (ih h)

theorem containsSeq_append_right (s x y : List Char) (h : containsSeq s y = true) :
    containsSeq s (x ++ y) = true := by
  induction x with
  | nil => exact h
  | cons c cs ih =>
    simp only [List.cons_append, containsSeq, Bool.or_eq_true]
    exact Or.inr ih

theorem firstSplit_decomp (sep : List Char) (l pre post : List Char)
    (h : firstSplit sep l = some (pre, post)) : l = pre ++ sep ++ post := by
  induction l generalizing pre post with
  | nil => exact absurd h (by simp [firstSplit])
  | cons c cs ih =>
    by_cases hp : sep.isPrefixOf (c :: cs) = true
    · rw [firstSplit, if_pos hp] at h
      obtain ⟨t, ht⟩ : ∃ t, sep ++ t = c :: cs := by
        rcases List.isPrefixOf_iff_prefix.mp hp with ⟨t, ht⟩
        exact ⟨t, ht⟩
      injection h with h1
      injection h1 with hpre hpost
      subst hpre
      rw [← ht] at hpost ⊢
      rw [List.drop_left] at hpost
      subst hpost
      simp
    · rw [firstSplit, if_neg hp] at h
      rcases hr : firstSplit sep cs with _ | ⟨pre2, post2⟩
      · rw [hr] at h
        exact absurd h (by simp)
      · rw [hr] at h
        injection h with h1
        injection h1 with hpre hpost
        subst hpre
        subst hpost
        simp [ih pre2 post2 hr]

theorem firstSplit_none_iff (sep : List Char) (hsep : sep ≠ []) (l : List Char) :
    firstSplit sep l = none ↔ containsSeq sep l = false := by
  induction l with
  | nil =>
    simp only [firstSplit, containsSeq, true_iff]
    simpa [List.isEmpty_iff] using hsep
  | cons c cs ih =>
    by_cases hp : sep.isPrefixOf (c :: cs) = true
    · rw [firstSplit, if_pos hp]
      simp [containsSeq, hp]
    · rw [firstSplit, if_neg hp]
      simp only [containsSeq]
      rcases hr : firstSplit sep cs with _ | ⟨pre, post⟩
      · simp only [Bool.or_eq_false_iff]
        exact ⟨fun _ => ⟨Bool.eq_false_iff.mpr hp, ih.mp hr⟩, fun _ => trivial⟩
      · simp only [Bool.or_eq_false_iff]
        constructor
        · intro hcontra
          exact absurd hcontra (by simp)
        · rintro ⟨h1, h2⟩
          exact absurd (ih.mpr h2) (by simp [hr])

theorem firstSplit_pre_none (sep : List Char) (l pre post : List Char)
    (h : firstSplit sep l = some (pre, post)) : firstSplit sep pre = none := by
  induction l generalizing pre post with
  | nil => exact absurd h (by simp [firstSplit])
  | cons c cs ih =>
    by_cases hp : sep.isPrefixOf (c :: cs) = true
    · rw [firstSplit, if_pos hp] at h
      injection h with h1
      injection h1 with hpre hpost
      subst hpre
      rfl
    · rw [firstSplit, if_neg hp] at h
      rcases hr : firstSplit sep cs with _ | ⟨pre2, post2⟩
      · rw [hr] at h
        exact absurd h (by simp)
      · rw [hr] at h
        injection h with h1
        injection h1 with hpre hpost
        subst hpre
        have hnone : firstSplit sep pre2 = none := ih pre2 post2 hr
        have hdec : cs = pre2 ++ sep ++ post2 := firstSplit_decomp sep cs pre2 post2 hr
        rw [firstSplit]
        rw [if_neg ?hnp]
        case hnp =>
          intro hcontra
          apply hp
      
          have : (c :: cs) = (c :: pre2) ++ (sep ++ post2) := by simp [hdec]
          rw [this]
          exact isPrefixOf_append_ext sep (c :: pre2) (sep ++ post2) hcontra
        rw [hnone]

theorem splitOnLAux_ne_nil (sep : List Char) (fuel : Nat) (l : List Char) :
    splitOnLAux sep fuel l ≠ [] := by
  cases fuel with
  | zero => simp [splitOnLAux]
  | succ n =>
    rw [splitOnLAux]
    rcases firstSplit sep l with _ | ⟨pre, post⟩ <;> simp

theorem splitOnLAux_singleton (sep : List Char) (fuel : Nat) (l q : List Char)
    (h : splitOnLAux sep fuel l = [q]) : q = l := by
  cases fuel with
  | zero =>
    simp only [splitOnLAux] at h
    injection h with h1
    exact h1.symm
  | succ n =>
    rw [splitOnLAux] at h
    rcases hr : firstSplit sep l with _ | ⟨pre, post⟩
    · rw [hr] at h
      injection h with h1
      exact h1.symm
    · rw [hr] at h
      injection h with h1 h2
      exact absurd h2 (splitOnLAux_ne_nil sep n post)

theorem splitOnLAux_free (sep : List Char) (hsep : sep ≠ []) (fuel : Nat) (l : List Char)
    (hfuel : l.length ≤ fuel) (p : List Char) (hp : p ∈ splitOnLAux sep fuel l) :
    containsSeq sep p = false := by
  induction fuel generalizing l with
  | zero =>
    have hl : l = [] := List.length_eq_zero.mp (Nat.le_zero.mp hfuel)
    subst hl
    simp only [splitOnLAux, List.mem_singleton] at hp
    subst hp
    simpa [containsSeq, List.isEmpty_iff] using hsep
  | succ n ih =>
    rw [splitOnLAux] at hp
    rcases hr : firstSplit sep l with _ | ⟨pre, post⟩
    · rw [hr] at hp
      simp only [List.mem_singleton] at hp
      subst hp
      exact (firstSplit_none_iff sep hsep p).mp hr
    · rw [hr] at hp
      simp only [List.mem_cons] at hp
      rcases hp with rfl | hp
      · exact (firstSplit_none_iff sep hsep p).mp (firstSplit_pre_none sep l p post hr)
      · have hdec := firstSplit_decomp sep l pre post hr
        have hlen : post.length ≤ n := by
          have : l.length = pre.length + sep.length + post.length := by
            rw [hdec]; simp [Nat.add_assoc]
          have hs1 : 1 ≤ sep.length := by
            rcases sep with _ | ⟨a, b⟩
            · exact absurd rfl hsep
            · simp
          omega
        exact ih post hlen hp

theorem splitOnL_free (sep : List Char) (hsep : sep ≠ []) (l : List Char)
    (p : List Char) (hp : p ∈ splitOnL sep l) : containsSeq sep p = false :=
  splitOnLAux_free sep hsep l.length l (Nat.le_refl _) p hp

theorem splitOnLAux_lift (sep : List Char) (fuel : Nat) (l : List Char) (p : List Char)
    (hp : p ∈ splitOnLAux sep fuel l) (s : List Char) (hc : containsSeq s p = true) :
    containsSeq s l = true := by
  induction fuel generalizing l with
  | zero =>
    simp only [splitOnLAux, List.mem_singleton] at hp
    subst hp
    exact hc
  | succ n ih =>
    rw [splitOnLAux] at hp
    rcases hr : firstSplit sep l with _ | ⟨pre, post⟩
    · rw [hr] at hp
      simp only [List.mem_singleton] at hp
      subst hp
      exact hc
    · rw [hr] at hp
      have hdec := firstSplit_decomp sep l pre post hr
      simp only [List.mem_cons] at hp
      rcases hp with rfl | hp
      · rw [hdec, List.append_assoc]
        exact containsSeq_append_left s p (sep ++ post) hc
      · rw [hdec]
        exact containsSeq_append_right s (pre ++ sep) post (ih post hp)

theorem splitOnL_lift (sep : List Char) (l p : List Char) (hp : p ∈ splitOnL sep l)
    (s : List Char) (hc : containsSeq s p = true) : containsSeq s l = true :=
  splitOnLAux_lift sep l.length l p hp s hc

theorem splitOnL_singleton (sep : List Char) (l q : List Char)
    (h : splitOnL sep l = [q]) : q = l :=
  splitOnLAux_singleton sep l.length l q h

theorem mergeAux_bound (cs ov : Nat) (sep : List Char) (ps : List (List Char)) :
    ∀ acc : List (List Char), (joinSep sep acc).length ≤ cs →
      ∀ c ∈ mergeAux cs ov sep acc ps, c.length ≤ cs ∨ c ∈ ps := by
  induction ps with
  | nil =>
    intro acc hacc c hc
    rw [mergeAux] at hc
    by_cases ha : acc = []
    · rw [if_pos ha] at hc
      exact absurd hc (by simp)
    · rw [if_neg ha] at hc
      simp only [List.mem_singleton] at hc
      subst hc
      exact Or.inl hacc
  | cons p ps ih =>
    intro acc hacc c hc
    rw [mergeAux] at hc
    by_cases h1 : (joinSep sep (acc ++ [p])).length ≤ cs
    · rw [if_pos h1] at hc
      rcases ih (acc ++ [p]) h1 c hc with h | h
      · exact Or.inl h
      · exact Or.inr (List.mem_cons_of_mem p h)
    · rw [if_neg h1] at hc
      rw [List.mem_append] at hc
      rcases hc with hflush | hrest
      · by_cases ha : acc = []
        · rw [if_pos ha] at hflush
          exact absurd hflush (by simp)
        · rw [if_neg ha] at hflush
          simp only [List.mem_singleton] at hflush
          subst hflush
          exact Or.inl hacc
      · by_cases h2 : (joinSep sep (overlapTail ov sep acc ++ [p])).length ≤ cs
        · rw [if_pos h2] at hrest
          rcases ih _ h2 c hrest with h | h
          · exact Or.inl h
          · exact Or.inr (List.mem_cons_of_mem p h)
        · rw [if_neg h2] at hrest
          by_cases h3 : p.length ≤ cs
          · rw [if_pos h3] at hrest
            rcases ih [p] (by simpa [joinSep] using h3) c hrest with h | h
            · exact Or.inl h
            · exact Or.inr (List.mem_cons_of_mem p h)
          · rw [if_neg h3] at hrest
            rcases List.mem_cons.mp hrest with rfl | h
            · exact Or.inr (List.mem_cons_self _ _)
            · rcases ih [] (by simp [joinSep]) c h with h | h
              · exact Or.inl h
              · exact Or.inr (List.mem_cons_of_mem p h)

theorem atoms_nil_eq (t : List Char) : atoms [] t = [t] := rfl

theorem atoms_cons_eq (s : List Char) (rest : List (List Char)) (t : List Char) :
    atoms (s :: rest) t = ((splitOnL s t).map (atoms rest)).flatten := rfl

theorem atoms_lift : ∀ (seps : List (List Char)) (t c : List Char), c ∈ atoms seps t →
    ∀ s : List Char, containsSeq s c = true → containsSeq s t = true := by
  intro seps
  induction seps with
  | nil =>
    intro t c hc s h
    rw [atoms_nil_eq] at hc
    simp only [List.mem_singleton] at hc
    subst hc
    exact h
  | cons s0 rest ih =>
    intro t c hc s h
    rw [atoms_cons_eq, List.mem_flatten] at hc
    obtain ⟨lp, hlp, hcm⟩ := hc
    rw [List.mem_map] at hlp
    obtain ⟨piece, hpiece, rfl⟩ := hlp
    exact splitOnL_lift s0 t piece hpiece s (ih piece c hcm s h)

theorem atoms_free : ∀ (seps : List (List Char)) (t c : List Char), c ∈ atoms seps t →
    (∀ s ∈ seps, s ≠ []) → ∀ s ∈ seps, containsSeq s c = false := by
  intro seps
  induction seps with
  | nil =>
    intro t c hc hne s hs
    exact absurd hs (by simp)
  | cons s0 rest ih =>
    intro t c hc hne s hs
    rw [atoms_cons_eq, List.mem_flatten] at hc
    obtain ⟨lp, hlp, hcm⟩ := hc
    rw [List.mem_map] at hlp
    obtain ⟨piece, hpiece, rfl⟩ := hlp
    rcases List.mem_cons.mp hs with rfl | hsr
    · have hfree : containsSeq s piece = false :=
        splitOnL_free s (hne s hs) t piece hpiece
      rcases hb : containsSeq s c with _ | _
      · rfl
      · exact absurd (atoms_lift rest piece c hcm s hb) (by simp [hfree])
    · exact ih piece c hcm (fun x hx => hne x (List.mem_cons_of_mem s0 hx)) s hsr

theorem splitRec_bound : ∀ (seps : List (List Char)) (cs ov : Nat) (text c : List Char),
    c ∈ splitRec cs ov seps text → c.length ≤ cs ∨ c ∈ atoms seps text := by
  intro seps
  induction seps with
  | nil =>
    intro cs ov text c hc
    have he : splitRec cs ov [] text = [text] := rfl
    rw [he] at hc
    simp only [List.mem_singleton] at hc
    subst hc
    exact Or.inr (by rw [atoms_nil_eq]; exact List.mem_singleton.mpr rfl)
  | cons s rest ih =>
    intro cs ov text c hc
    have he : splitRec cs ov (s :: rest) text =
        splitRecStep cs ov s (splitRec cs ov rest) text := rfl
    rw [he, splitRecStep] at hc
    by_cases h1 : text.length ≤ cs
    · rw [if_pos h1] at hc
      simp only [List.mem_singleton] at hc
      subst hc
      exact Or.inl h1
    · rw [if_neg h1] at hc
      rcases hsp : splitOnL s text with _ | ⟨q, qs⟩
    
      · exact absurd hsp (splitOnLAux_ne_nil s text.length text)
      · rcases qs with _ | ⟨q2, qs2⟩
        · rw [hsp] at hc
          have hq : q = text := splitOnL_singleton s text q hsp
          subst hq
          rcases ih cs ov q c hc with h | h
          · exact Or.inl h
          · right
            rw [atoms_cons_eq, hsp]
            simpa using h
        · rw [hsp] at hc
          rcases mergeAux_bound cs ov s
              (((q :: q2 :: qs2).map (splitRec cs ov rest)).flatten) []
              (by simp [joinSep]) c hc with h | h
          · exact Or.inl h
          · rw [List.mem_flatten] at h
            obtain ⟨lp, hlp, hcm⟩ := h
            rw [List.mem_map] at hlp
            obtain ⟨piece, hpiece, rfl⟩ := hlp
            rcases ih cs ov piece c hcm with h2 | h2
            · exact Or.inl h2
            · right
              rw [atoms_cons_eq, List.mem_flatten]
              refine ⟨atoms rest piece, ?_, h2⟩
              rw [List.mem_map]
              refine ⟨piece, ?_, rfl⟩
              rw [hsp]
              exact hpiece

/-- Claim C9: for a non-empty text and chunk_size greater than the
overlap, every chunk produced by `chunk_text` has length at most
chunk_size, except when a single indivisible token — a piece left by
splitting the text on every separator, containing no separator
occurrence — exceeds chunk_size, in which case that token alone forms
the chunk. -/
theorem chunk_size_bounded_or_indivisible (text : List Char) (chunk_size overlap : Nat)
    (htext : text ≠ []) (hco : overlap < chunk_size) :
    ∀ c ∈ chunk_text text chunk_size overlap,
      c.length ≤ chunk_size ∨
        (c ∈ atoms separators text ∧ ∀ s ∈ separators, containsSeq s c = false) := by
  intro c hc
  rcases splitRec_bound separators chunk_size overlap text c hc with h | h
  · exact Or.inl h
  · exact Or.inr ⟨h, atoms_free separators text c h (by decide)⟩

theorem chunk_size_bounded_or_indivisible_witness :
    "hello".toList.length ≤ 4 ∨
      ("hello".toList ∈ atoms separators "hello world".toList ∧
        ∀ s ∈ separators, containsSeq s "hello".toList = false) :=
  chunk_size_bounded_or_indivisible "hello world".toList 4 1 (by decide) (by decide)
    "hello".toList (by decide)
